import Mathlib

/-
  Verification development for assets/photos.js: folder discovery,
  prebuilt-archive candidate resolution, the bounded-concurrency mapper
  used for client-side archive building, the sequential-download
  fallback, and the shared progress indicator.

  Modelling conventions (shallow embedding):
  * Network calls are oracles passed in as parameters: an existence probe
    is `probe : String -> Bool` (HEAD ok / not-ok-or-threw), a blob fetch
    is `fetchOk : String -> Bool`, a fetched HTML page is the list of
    anchor hrefs (`List (Option String)`, None = missing attribute)
    and, where relevant, img srcs.
  * The cooperative async scheduler is explicit: at every
    `await Promise.race(executing)` the environment chooses which
    in-flight task settles first; the choice stream is a `List Nat`
    (index modulo the number of in-flight tasks, defaulting to 0 when
    the stream is exhausted).
  * DOM mutations are modelled as an event trace (alerts, triggered
    anchor-click downloads, timer pauses, progress-bar writes, saving
    of a generated archive blob).
  * JSZip's generateAsync progress callbacks are external inputs,
    modelled as the list of (already rounded, nonnegative integral)
    percentages it reports; the code skips falsy (zero) reports.
-/

namespace Photos

/-! ### JavaScript string primitives used by photos.js -/

/-- JS `s.endsWith(t)` (code-unit comparison; all strings involved here
are ASCII, so comparing characters is faithful). -/
def jsEndsWith (s t : String) : Bool :=
  t.data.isSuffixOf s.data

/-- JS `s.startsWith(t)`. -/
def jsStartsWith (s t : String) : Bool :=
  t.data.isPrefixOf s.data

/-- ASCII lower-casing, modelling JS `toLowerCase()` on the ASCII names
this code compares (only `'minnesota'` matters). -/
def asciiLower (c : Char) : Char :=
  if 65 ≤ c.toNat ∧ c.toNat ≤ 90 then Char.ofNat (c.toNat + 32) else c

/-- JS `s.toLowerCase()` restricted to ASCII case folding. -/
def jsToLower (s : String) : String :=
  ⟨s.data.map asciiLower⟩

/-- Drop the first occurrence of a character, as JS
`s.replace(/x/, '')` does with a non-global regex. -/
def dropFirstChar (c : Char) : List Char → List Char
  | [] => []
  | x :: xs => if x = c then xs else x :: dropFirstChar c xs

/-- JS `s.replace(/\//, '')`: remove only the first slash. -/
def removeFirstSlash (s : String) : String :=
  ⟨dropFirstChar '/' s.data⟩

/-- JS `s.replace(/^\/\//, '')`: strip one leading double slash. -/
def stripLeadingDoubleSlash (s : String) : String :=
  match s.data with
  | '/' :: '/' :: rest => ⟨rest⟩
  | _ => s

/-- Index (from the start) of the last `/` reachable by `^.*\/`:
the largest slash position inside the maximal newline-free prefix
(JS `.` does not match newlines).  Returns the number of characters
the regex match consumes. -/
def lastSlashCut (cs : List Char) : Nat :=
  match cs with
  | [] => 0
  | c :: rest =>
    if c = '\n' then 0
    else
      let tailCut := lastSlashCut rest
      if tailCut ≠ 0 then tailCut + 1
      else if c = '/' then 1
      else 0

/-- JS `s.replace(/^.*\//, '')`: drop everything up to and including the
last slash matchable from the start of the string. -/
def jsBasename (s : String) : String :=
  ⟨s.data.drop (lastSlashCut s.data)⟩

/-- JS whitespace class `\s` (the characters relevant to this code). -/
def isJsWs (c : Char) : Bool :=
  c.toNat ∈ [9, 10, 11, 12, 13, 32, 160, 0x1680, 0x2028, 0x2029, 0x202F, 0x205F, 0x3000, 0xFEFF]
  || (0x2000 ≤ c.toNat && c.toNat ≤ 0x200A)

/-- Core of `s.replace(/\s+/g, '_')`: every maximal whitespace run
becomes a single underscore.  The boolean records whether the previous
character was whitespace. -/
def collapseWsAux : Bool → List Char → List Char
  | _, [] => []
  | prev, c :: cs =>
    if isJsWs c then (if prev then [] else ['_']) ++ collapseWsAux true cs
    else c :: collapseWsAux false cs

/-- JS `s.replace(/\s+/g, '_')`. -/
def jsCollapseWs (s : String) : String :=
  ⟨collapseWsAux false s.data⟩

/-- UTF-8 bytes of one code point (as naturals), for percent-encoding. -/
def utf8Bytes (c : Char) : List Nat :=
  let n := c.toNat
  if n < 0x80 then [n]
  else if n < 0x800 then [0xC0 + n / 64, 0x80 + n % 64]
  else if n < 0x10000 then [0xE0 + n / 4096, 0x80 + (n / 64) % 64, 0x80 + n % 64]
  else [0xF0 + n / 262144, 0x80 + (n / 4096) % 64, 0x80 + (n / 64) % 64, 0x80 + n % 64]

def hexDigitChar (n : Nat) : Char :=
  (['0', '1', '2', '3', '4', '5', '6', '7', '8', '9',
    'A', 'B', 'C', 'D', 'E', 'F']).getD n '0'

/-- `%XX` escape of one byte. -/
def pctByte (b : Nat) : List Char :=
  ['%', hexDigitChar (b / 16), hexDigitChar (b % 16)]

/-- Characters `encodeURIComponent` leaves alone:
`A-Z a-z 0-9 - _ . ! ~ * ' ( )`. -/
def uriUnreservedChar (c : Char) : Bool :=
  let n := c.toNat
  (65 ≤ n && n ≤ 90) || (97 ≤ n && n ≤ 122) || (48 ≤ n && n ≤ 57)
  || n ∈ [45, 46, 95, 126, 33, 42, 39, 40, 41]

/-- JS `encodeURIComponent(s)`. -/
def jsEncodeURIComponent (s : String) : String :=
  ⟨s.data.foldr
    (fun c acc =>
      (if uriUnreservedChar c then [c]
       else (utf8Bytes c).foldr (fun b a2 => pctByte b ++ a2) []) ++ acc)
    []⟩

/-! ### mapWithConcurrency (photos.js lines 24-36)

```js
async function mapWithConcurrency(list, mapper, concurrency = 4) {
  const results = [];
  const executing = new Set();
  for (const item of list) {
    const p = (async () => mapper(item))();
    results.push(p);
    executing.add(p);
    const cleanup = () => executing.delete(p);
    p.then(cleanup).catch(cleanup);
    if (executing.size >= concurrency) await Promise.race(executing);
  }
  return Promise.all(results);
}
```

In-flight promises form the `executing` multiset (promises are distinct
objects even for equal items, so a list is faithful).  Settlement can
occur only while the loop is suspended at the `await`; the registered
cleanup removes the settled promise before the loop resumes.  If the
promise that wins the race is rejected, the `await` throws: the loop
stops admitting tasks and the function's promise rejects.  The final
`Promise.all` settles the remaining promises and resolves, in push
order, only when every task resolved. -/

/-- State of one run of `mapWithConcurrency`:
the in-flight tasks (in start order), the peak number simultaneously in
flight, all tasks started so far (in start order), the tasks settled so
far (reverse chronological order), and whether an admission `await`
observed a rejection (aborting the loop). -/
structure PoolSt (α : Type) where
  executing : List α
  maxExec : Nat
  started : List α
  settledRev : List α
  aborted : Bool
deriving Repr, DecidableEq

def initPool {α : Type} : PoolSt α := ⟨[], 0, [], [], false⟩

/-- Consume one scheduler choice (default 0 when exhausted). -/
def takeChoice : List Nat → Nat × List Nat
  | [] => (0, [])
  | i :: r => (i, r)

/-- `results.push(p); executing.add(p)`: one task starts. -/
def poolAdd {α : Type} (s : PoolSt α) (item : α) : PoolSt α :=
  { executing := s.executing ++ [item]
    maxExec := max s.maxExec (s.executing.length + 1)
    started := s.started ++ [item]
    settledRev := s.settledRev
    aborted := s.aborted }

/-- One settlement while suspended at an `await`: the scheduler choice
`i` (modulo the number of in-flight tasks) selects the winner, whose
cleanup removes it from `executing` before the loop resumes.  Returns
the new state and the task that settled (`d` is a dummy default, used
only when `executing` is empty, which never happens at call sites). -/
def poolSettle {α : Type} (s : PoolSt α) (i : Nat) (d : α) : PoolSt α × α :=
  (
    { s with
        executing := s.executing.eraseIdx (i % s.executing.length)
        settledRev := s.executing.getD (i % s.executing.length) d :: s.settledRev },
    s.executing.getD (i % s.executing.length) d)

/-- The admission loop of `mapWithConcurrency`.  `ok a` tells whether
the mapper's promise for item `a` resolves (`true`) or rejects.  After
each start, when the in-flight count has reached `N`, the loop blocks
until some in-flight task settles; a rejection observed there makes the
`await` throw, so no further task is admitted.  Returns the state and
the unconsumed scheduler stream. -/
def mapWCLoop {α : Type} (ok : α → Bool) (N : Nat) :
    List α → List Nat → PoolSt α → PoolSt α × List Nat
  | [], sched, s => (s, sched)
  | item :: rest, sched, s =>
    if N ≤ (poolAdd s item).executing.length then
      if ok (poolSettle (poolAdd s item) (takeChoice sched).1 item).2 then
        mapWCLoop ok N rest (takeChoice sched).2
          (poolSettle (poolAdd s item) (takeChoice sched).1 item).1
      else
        ({ (poolSettle (poolAdd s item) (takeChoice sched).1 item).1 with
            aborted := true },
         (takeChoice sched).2)
    else
      mapWCLoop ok N rest sched (poolAdd s item)

/-- The `Promise.all` phase: the remaining in-flight tasks settle one by
one in scheduler-chosen order.  `fuel` is instantiated with the number
of in-flight tasks. -/
def mapWCDrain {α : Type} : Nat → List Nat → PoolSt α → PoolSt α
  | 0, _, s => s
  | fuel + 1, sched, s =>
    match s.executing with
    | [] => s
    | e :: _ =>
      mapWCDrain fuel (takeChoice sched).2
        (poolSettle s (takeChoice sched).1 e).1

/-- A complete run of `mapWithConcurrency` under a scheduler stream.
On abort the function's promise has already rejected; the still-pending
fetches are irrelevant to every observation made of the state. -/
def mapWCRun {α : Type} (ok : α → Bool) (N : Nat) (list : List α)
    (sched : List Nat) : PoolSt α :=
  let r := mapWCLoop ok N list sched initPool
  if r.1.aborted then r.1 else mapWCDrain r.1.executing.length r.2 r.1

/-- The value `mapWithConcurrency(list, mapper, N)` resolves to:
`none` when its promise rejects (an admission await observed a
rejection, or `Promise.all` saw a rejected member), otherwise the
mapper results in push order, which is start order. -/
def mapWithConcurrency {α β : Type} (ok : α → Bool) (f : α → β) (N : Nat)
    (list : List α) (sched : List Nat) : Option (List β) :=
  let s := mapWCRun ok N list sched
  if s.aborted then none
  else if s.started.all (fun a => ok a) then some (s.started.map f)
  else none

/-! ### Observable events of an operation

The DOM side effects of the download pipelines as an event trace:
blocking alerts, programmatic anchor-click downloads (href and the
suggested filename), `setTimeout` pauses, writes to the shared progress
bar, and saving a generated archive blob. -/

/-- One packed archive entry: the folder label under which it is
grouped, the entry filename inside the archive, and the URL the blob
was fetched from. -/
structure ArchiveEntry where
  folderLabel : String
  entryName : String
  srcUrl : String
deriving Repr, DecidableEq

inductive Event where
  | alertMsg (msg : String)
  | download (href : String) (fname : String)
  | pauseMs (ms : Nat)
  | setProgress (v : Nat)
  | saveArchive (zipName : String) (entries : List ArchiveEntry)
deriving Repr, DecidableEq

/-- The successive values written to the shared progress bar. -/
def progressTrace (evs : List Event) : List Nat :=
  evs.filterMap (fun e =>
    match e with
    | Event.setProgress v => some v
    | _ => none)

/-- The anchor-click downloads triggered, in order. -/
def downloadsOf (evs : List Event) : List (String × String) :=
  evs.filterMap (fun e =>
    match e with
    | Event.download h f => some (h, f)
    | _ => none)

/-- The archives saved, in order (name and entries). -/
def archivesOf (evs : List Event) : List (String × List ArchiveEntry) :=
  evs.filterMap (fun e =>
    match e with
    | Event.saveArchive n es => some (n, es)
    | _ => none)

/-! ### findAvailableZip and the zip-button handlers
(photos.js lines 63-73, 146-189, 514-559) -/

/-- `findAvailableZip(candidates)`: probe each candidate with a HEAD
request, return the first that responds ok, null when all fail.  A
thrown fetch is caught and treated like a failed probe, so the oracle
`probe` covers both. -/
def findAvailableZip (probe : String → Bool) : List String → Option String
  | [] => none
  | c :: cs => if probe c then some c else findAvailableZip probe cs

/-- The URLs `findAvailableZip` actually probes: every candidate up to
and including the first success. -/
def probeTrace (probe : String → Bool) : List String → List String
  | [] => []
  | c :: cs => c :: (if probe c then [] else probeTrace probe cs)

/-- The hardcoded special-case archive path. -/
def minnesotaZipPath : String := "/photos/minnesota/minnesota.zip"

/-- What a zip-button click resolves to: a prebuilt archive URL to
download directly, or falling back to client-side zipping. -/
inductive ZipResolution where
  | url (u : String)
  | clientZip
deriving Repr, DecidableEq

/-- The candidate list built in the `folderTile` zip handler
(lines 175-181): `encodeURIComponent(name || 'photos')` substituted
into the four documented locations. -/
def tileCandidates (name path : String) : List String :=
  let folderName := jsEncodeURIComponent (if name = "" then "photos" else name)
  [path ++ folderName ++ ".zip",
   path ++ folderName ++ ".ZIP",
   "/photos/" ++ folderName ++ ".zip",
   "/photos/altfiles/" ++ folderName ++ ".zip"]

/-- The `folderTile` zip-button click handler (lines 146-189): the
minnesota override is probed only when the (truthy) name
case-insensitively equals `'minnesota'`; on a successful probe its URL
is used immediately.  Otherwise the generic candidates are probed in
order, falling back to client-side zipping.  Returns the resolution and
the full list of URLs probed, in order. -/
def folderTileZipClick (probe : String → Bool) (name path : String) :
    ZipResolution × List String :=
  let special := name ≠ "" ∧ jsToLower name = "minnesota"
  if special then
    if probe minnesotaZipPath then (ZipResolution.url minnesotaZipPath, [minnesotaZipPath])
    else
      let cands := tileCandidates name path
      (match findAvailableZip probe cands with
       | some u => ZipResolution.url u
       | none => ZipResolution.clientZip,
       minnesotaZipPath :: probeTrace probe cands)
  else
    let cands := tileCandidates name path
    (match findAvailableZip probe cands with
     | some u => ZipResolution.url u
     | none => ZipResolution.clientZip,
     probeTrace probe cands)

/-- The candidate list built in the `renderFolderPage` zip handler
(lines 539-544): `encodeURIComponent(folderName)` with no `'photos'`
substitution. -/
def pageCandidates (basePath folderName : String) : List String :=
  let e := jsEncodeURIComponent folderName
  [basePath ++ e ++ ".zip",
   basePath ++ e ++ ".ZIP",
   "/photos/" ++ e ++ ".zip",
   "/photos/altfiles/" ++ e ++ ".zip"]

/-- The `renderFolderPage` top zip-button click handler
(lines 514-559): the minnesota archive path is probed first
unconditionally, whatever the folder's name; only if that probe fails
are the folder's own candidates tried. -/
def folderPageZipClick (probe : String → Bool) (basePath folderName : String) :
    ZipResolution × List String :=
  if probe minnesotaZipPath then (ZipResolution.url minnesotaZipPath, [minnesotaZipPath])
  else
    let cands := pageCandidates basePath folderName
    (match findAvailableZip probe cands with
     | some u => ZipResolution.url u
     | none => ZipResolution.clientZip,
     minnesotaZipPath :: probeTrace probe cands)

/-! ### Root folder discovery: loadManifest (photos.js lines 78-98) -/

/-- A discovered root folder entry, as built by the heuristic fallback:
`{ name: h.replace(/\//, ''), path: '/photos/' + h.replace(/\//, '') + '/' }`. -/
structure HFolder where
  name : String
  path : String
deriving Repr, DecidableEq

/-- Anchor-href parsing of the photos root listing (lines 91-92):
hrefs are filtered for truthiness (`filter(Boolean)` drops missing and
empty ones), trailing-slash targets become folders. -/
def manifestAnchorFolders (links : List (Option String)) : List HFolder :=
  (((links.filterMap id).filter (fun h => h ≠ "")).filter
      (fun h => jsEndsWith h "/")).map
    (fun h =>
      { name := removeFirstSlash h
        path := "/photos/" ++ removeFirstSlash h ++ "/" })

/-- `loadManifest()`: try `/photos/manifest.json` (any transport, HTTP
or parse failure is `none`); on failure fetch `/photos/` and parse its
anchors (`none` when that fetch or its text() throws); when both fail
the result is `{ folders: [] }`.  The JSON success value is abstracted
as the parsed folder list.  Total: never throws to its caller. -/
def loadManifest (manifestJson : Option (List HFolder))
    (rootListing : Option (List (Option String))) : List HFolder :=
  match manifestJson with
  | some fs => fs
  | none =>
    match rootListing with
    | some links => manifestAnchorFolders links
    | none => []

/-! ### Folder index loading: loadFolderIndex (photos.js lines 243-282) -/

/-- The `{files, folders}` shape returned by `loadFolderIndex`
(folders reduced to their names). -/
structure FolderIndexDoc where
  files : List String
  folders : List String
deriving Repr, DecidableEq

/-- Keep an anchor href in the fallback listing parse: skip falsy
hrefs, query links and the parent link (line 258). -/
def anchorKeep (h : String) : Bool :=
  !(h = "" || jsStartsWith h "?" || h = "../")

/-- File entries from the anchor pass (lines 256-266): kept hrefs not
ending in a slash, in page order. -/
def indexAnchorFiles (anchors : List (Option String)) : List String :=
  ((anchors.filterMap id).filter anchorKeep).filter
    (fun h => !jsEndsWith h "/")

/-- Folder entries from the anchor pass: kept hrefs ending in a slash,
with the first slash removed for the name. -/
def indexAnchorFolders (anchors : List (Option String)) : List String :=
  (((anchors.filterMap id).filter anchorKeep).filter
      (fun h => jsEndsWith h "/")).map removeFirstSlash

/-- The secondary img fallback applied to img srcs (lines 271-279):
drop falsy srcs, strip a leading `//`, collapse to the text after the
last slash, then drop entries still starting with `data:`. -/
def imgFallbackFiles (imgs : List (Option String)) : List String :=
  (((imgs.filterMap id).filter (fun s => s ≠ "")).map
      (fun s => jsBasename (stripLeadingDoubleSlash s))).filter
    (fun s => !jsStartsWith s "data:")

/-- The HTML directory-listing fallback parse of `loadFolderIndex`:
anchor classification first; when it yields zero files, the img srcs
are scanned and their processed names pushed as the files (pushed only
when at least one survives, which changes nothing when none do). -/
def parseFolderListing (anchors imgs : List (Option String)) : FolderIndexDoc :=
  let files := indexAnchorFiles anchors
  { files := if files.isEmpty then imgFallbackFiles imgs else files
    folders := indexAnchorFolders anchors }

/-- `loadFolderIndex(folderPath)`: an ok `index.json` response whose
body parses is returned as-is (abstracted as the parsed document);
otherwise the folder page is fetched and its listing parsed.  `none`
for the page fetch means the fetch or text() threw, which propagates:
the result is `none` (the promise rejects, callers catch it). -/
def loadFolderIndex (indexJson : Option FolderIndexDoc)
    (page : Option (List (Option String) × List (Option String))) :
    Option FolderIndexDoc :=
  match indexJson with
  | some d => some d
  | none =>
    match page with
    | some (anchors, imgs) => some (parseFolderListing anchors imgs)
    | none => none

/-! ### Folder tile expansion (photos.js lines 130-144) -/

/-- The per-tile expansion state: visibility of the contents wrapper
(`hidden` class, initially present), the `dataset.loaded` flag
(initially unset), and how many discovery requests have been issued. -/
structure TileState where
  hidden : Bool
  loaded : Bool
  requests : Nat
deriving Repr, DecidableEq

def tileInit : TileState := ⟨true, false, 0⟩

/-- One click of the expand toggle.  `classList.toggle('hidden')`
returns the new presence of the class; contents are (re)loaded when the
wrapper just became visible and `dataset.loaded` is unset.  `loadOk`
tells whether `loadFolderIndex` resolved; only then is the flag set. -/
def toggleClick (loadOk : Bool) (s : TileState) : TileState :=
  let hidden := !s.hidden
  if !hidden && !s.loaded then
    { hidden := hidden, loaded := loadOk, requests := s.requests + 1 }
  else
    { s with hidden := hidden }

/-- A sequence of toggle clicks, each with its load outcome. -/
def runClicks : List Bool → TileState → TileState
  | [], s => s
  | c :: cs, s => runClicks cs (toggleClick c s)

/-- How many clicks in the sequence move `loaded` from false to true. -/
def loadFlips : List Bool → TileState → Nat
  | [], _ => 0
  | c :: cs, s =>
    (if !s.loaded && (toggleClick c s).loaded then 1 else 0)
      + loadFlips cs (toggleClick c s)

/-! ### createZipFromFolder and its fallbacks (photos.js lines 284-347) -/

/-- Outcome of fetching a folder's HTML page in `createZipFromFolder`:
the fetch threw (promise rejects with no observable event), the
response was not ok (alert and return), or the anchor hrefs of the
returned document. -/
inductive FetchHtml where
  | netError
  | httpError
  | ok (anchors : List (Option String))
deriving Repr, DecidableEq

/-- Environment of one `createZipFromFolder` run: whether JSZip loaded,
the folder-listing fetch outcome, the per-URL blob-fetch oracle, and
the (rounded, integral) percentages the JSZip encoder reports. -/
structure ZipEnv where
  hasZip : Bool
  listing : FetchHtml
  fetchOk : String → Bool
  genMetas : List Nat

/-- Anchor hrefs kept for zipping (lines 293): truthy and not ending in
`../`. -/
def zipAnchors (anchors : List (Option String)) : List String :=
  ((anchors.filterMap id).filter (fun h => h ≠ "")).filter
    (fun h => !jsEndsWith h "../")

/-- The files to pack (line 294): kept hrefs not ending in a slash. -/
def zipFiles (anchors : List (Option String)) : List String :=
  (zipAnchors anchors).filter (fun h => !jsEndsWith h "/")

/-- `Math.round(completed / total * 100)` on naturals:
round-half-up of `completed * 100 / total`. -/
def jsRound100 (completed total : Nat) : Nat :=
  (200 * completed + total) / (2 * total)

/-- The filename `downloadFilesSequentially` suggests: the folder
context (whitespace collapsed to underscores) prefixed when truthy,
then the file's basename. -/
def seqFileName (folderName f : String) : String :=
  (if folderName = "" then "" else jsCollapseWs folderName ++ "_") ++ jsBasename f

/-- `downloadFilesSequentially(files, basePath, folderName)`
(lines 331-347): one anchor-click download per file in order, each
followed by a 250ms pause.  It writes no progress and builds nothing. -/
def downloadFilesSequentially (files : List String) (basePath folderName : String) :
    List Event :=
  files.flatMap (fun f =>
    [Event.download (basePath ++ f) (seqFileName folderName f), Event.pauseMs 250])

/-- The progress writes of the fetch/pack phase: the k-th settling task
(success or failure alike, via the mapper's `finally`) writes
`Math.round(k / total * 100)`. -/
def fetchPhaseEvents (settled total : Nat) : List Event :=
  (List.range settled).map (fun k => Event.setProgress (jsRound100 (k + 1) total))

/-- The progress writes of the `generateAsync` encode phase: each
truthy (nonzero) reported percent is written to the bar. -/
def genProgressEvents (metas : List Nat) : List Event :=
  (metas.filter (fun p => p ≠ 0)).map Event.setProgress

/-- The archive entries packed by the `createZipFromFolder` mapper: for
each file whose blob fetch succeeded, in settle order, an entry named
by the file's basename under the single folder label, fetched from
`folderPath + f`.  Failed fetches are caught and skipped. -/
def zipPackEntries (fetchOk : String → Bool) (folderPath label : String)
    (settled : List String) : List ArchiveEntry :=
  (settled.filter (fun f => fetchOk (folderPath ++ f))).map
    (fun f => ⟨label, jsBasename f, folderPath ++ f⟩)

/-- `createZipFromFolder(folderPath, folderName)` (lines 285-328) as an
event trace, under a scheduler stream for the concurrent fetch phase.
The mapper passed to `mapWithConcurrency` wraps its body in
try/catch/finally, so its promise always resolves. -/
def createZipFromFolder (env : ZipEnv) (sched : List Nat)
    (folderPath folderName : String) : List Event :=
  match env.listing with
  | FetchHtml.netError => []
  | FetchHtml.httpError => [Event.alertMsg "Failed to list folder"]
  | FetchHtml.ok anchors =>
    let files := zipFiles anchors
    if files.isEmpty then [Event.alertMsg "No files found to zip"]
    else if !env.hasZip then
      Event.setProgress 0 ::
        downloadFilesSequentially files folderPath folderName
        ++ [Event.setProgress 100]
    else
      let label := if folderName = "" then "photos" else folderName
      let s := mapWCRun (fun _ => true) 4 files sched
      fetchPhaseEvents s.settledRev.length files.length
        ++ genProgressEvents env.genMetas
        ++ [Event.saveArchive (label ++ ".zip")
              (zipPackEntries env.fetchOk folderPath label s.settledRev.reverse),
            Event.setProgress 100]

/-! ### downloadAllVisible (photos.js lines 378-429) -/

/-- One cross-folder download task `{ path, file, folder }`. -/
structure DlTask where
  path : String
  file : String
  folder : String
deriving Repr, DecidableEq

/-- Environment of one `downloadAllVisible` run: whether JSZip loaded,
the rendered tiles as (trimmed title, open-href path) pairs, the
per-path folder-listing oracle (`none` = response not ok, tile
skipped), the blob-fetch oracle, and the encoder percents. -/
structure AllEnv where
  hasZip : Bool
  tiles : List (String × String)
  tileListing : String → Option (List (Option String))
  fetchOk : String → Bool
  genMetas : List Nat

/-- Task gathering (lines 386-397): per tile, list its files with the
same anchor filtering as `createZipFromFolder` and queue one task per
file. -/
def gatherTasks (env : AllEnv) : List DlTask :=
  env.tiles.flatMap (fun t =>
    match env.tileListing t.2 with
    | none => []
    | some anchors => (zipFiles anchors).map (fun f => ⟨t.2, f, t.1⟩))

/-- The filename the batch fallback suggests for one task. -/
def allFileName (t : DlTask) : String :=
  (if t.folder = "" then "" else jsCollapseWs t.folder ++ "_") ++ jsBasename t.file

/-- The sequential fallback of `downloadAllVisible` (lines 402-412):
per task in order, an anchor-click download (its own errors caught and
skipped), then a progress write counting that task, then a 200ms
pause. -/
def allSeqEvents (tasks : List DlTask) : List Event :=
  tasks.enum.flatMap (fun p =>
    [Event.download (p.2.path ++ p.2.file) (allFileName p.2),
     Event.setProgress (jsRound100 (p.1 + 1) tasks.length),
     Event.pauseMs 200])

/-- The archive entries packed by the `downloadAllVisible` mapper:
per settled task whose blob fetch succeeded, an entry under the task's
folder label named by the file's basename. -/
def allPackEntries (fetchOk : String → Bool) (settled : List DlTask) :
    List ArchiveEntry :=
  (settled.filter (fun t => fetchOk (t.path ++ t.file))).map
    (fun t => ⟨t.folder, jsBasename t.file, t.path ++ t.file⟩)

/-- `downloadAllVisible()` (lines 378-429) as an event trace. -/
def downloadAllVisible (env : AllEnv) (sched : List Nat) : List Event :=
  let tasks := gatherTasks env
  if tasks.isEmpty then [Event.alertMsg "No files found"]
  else if !env.hasZip then
    allSeqEvents tasks ++ [Event.setProgress 100]
  else
    let s := mapWCRun (fun _ => true) 4 tasks sched
    fetchPhaseEvents s.settledRev.length tasks.length
      ++ genProgressEvents env.genMetas
      ++ [Event.saveArchive "photos-all.zip"
            (allPackEntries env.fetchOk s.settledRev.reverse),
          Event.setProgress 100]

/-! ### Lemmas about the concurrency pool -/

theorem getD_cons_eraseIdx_perm {α : Type} :
    ∀ (l : List α) (i : Nat) (d : α), i < l.length →
      (l.getD i d :: l.eraseIdx i).Perm l := by
  intro l
  induction l with
  | nil => intro i d h; simp at h
  | cons a as ih =>
    intro i d h
    cases i with
    | zero => simp
    | succ j =>
      have hj : j < as.length := Nat.lt_of_succ_lt_succ (by simpa using h)
      simp only [List.getD_cons_succ, List.eraseIdx_cons_succ]
      exact (List.Perm.swap a (as.getD j d) (as.eraseIdx j)).trans
        ((ih j d hj).cons a)

theorem poolSettle_fields {α : Type} (s : PoolSt α) (i : Nat) (d : α) :
    (poolSettle s i d).1.maxExec = s.maxExec ∧
    (poolSettle s i d).1.started = s.started ∧
    (poolSettle s i d).1.aborted = s.aborted ∧
    (poolSettle s i d).1.settledRev = (poolSettle s i d).2 :: s.settledRev := by
  simp [poolSettle]

theorem poolSettle_executing_length {α : Type} (s : PoolSt α) (i : Nat) (d : α)
    (h : s.executing ≠ []) :
    (poolSettle s i d).1.executing.length + 1 = s.executing.length := by
  have hpos : 0 < s.executing.length := List.length_pos.mpr h
  have hidx : i % s.executing.length < s.executing.length := Nat.mod_lt _ hpos
  simpa [poolSettle] using List.length_eraseIdx_add_one hidx

theorem poolSettle_perm {α : Type} (s : PoolSt α) (i : Nat) (d : α)
    (h : s.executing ≠ []) :
    ((poolSettle s i d).2 :: (poolSettle s i d).1.executing).Perm s.executing := by
  have hpos : 0 < s.executing.length := List.length_pos.mpr h
  have hidx : i % s.executing.length < s.executing.length := Nat.mod_lt _ hpos
  simpa [poolSettle] using getD_cons_eraseIdx_perm s.executing (i % s.executing.length) d hidx

theorem poolSettle_settled_mem {α : Type} (s : PoolSt α) (i : Nat) (d : α)
    (h : s.executing ≠ []) :
    (poolSettle s i d).2 ∈ s.executing :=
  (poolSettle_perm s i d h).mem_iff.mp (List.mem_cons_self _ _)

theorem mapWCLoop_bound {α : Type} (ok : α → Bool) (N : Nat) :
    ∀ (list : List α) (sched : List Nat) (s : PoolSt α),
      s.executing.length < N → s.maxExec ≤ N →
      (mapWCLoop ok N list sched s).1.maxExec ≤ N ∧
      (mapWCLoop ok N list sched s).1.executing.length < N := by
  intro list
  induction list with
  | nil =>
    intro sched s h1 h2
    simpa [mapWCLoop] using ⟨h2, h1⟩
  | cons item rest ih =>
    intro sched s h1 h2
    have hlen : (poolAdd s item).executing.length = s.executing.length + 1 := by
      simp [poolAdd]
    have hmax : (poolAdd s item).maxExec ≤ N := by
      simp only [poolAdd]
      exact max_le h2 h1
    have hne : (poolAdd s item).executing ≠ [] := by simp [poolAdd]
    rw [mapWCLoop]
    by_cases hc : N ≤ (poolAdd s item).executing.length
    · rw [if_pos hc]
      have hsl := poolSettle_executing_length (poolAdd s item) (takeChoice sched).1 item hne
      have hlt :
          (poolSettle (poolAdd s item) (takeChoice sched).1 item).1.executing.length < N := by
        omega
      have hmx :
          (poolSettle (poolAdd s item) (takeChoice sched).1 item).1.maxExec ≤ N := by
        rw [(poolSettle_fields _ _ _).1]; exact hmax
      by_cases hok : ok (poolSettle (poolAdd s item) (takeChoice sched).1 item).2
      · rw [if_pos hok]; exact ih _ _ hlt hmx
      · rw [if_neg hok]; exact ⟨hmx, hlt⟩
    · rw [if_neg hc]
      exact ih _ _ (by omega) hmax

theorem mapWCLoop_started_take {α : Type} (ok : α → Bool) (N : Nat) :
    ∀ (list : List α) (sched : List Nat) (s : PoolSt α),
      ∃ k, (mapWCLoop ok N list sched s).1.started = s.started ++ list.take k := by
  intro list
  induction list with
  | nil =>
    intro sched s
    exact ⟨0, by simp [mapWCLoop]⟩
  | cons item rest ih =>
    intro sched s
    rw [mapWCLoop]
    by_cases hc : N ≤ (poolAdd s item).executing.length
    · rw [if_pos hc]
      by_cases hok : ok (poolSettle (poolAdd s item) (takeChoice sched).1 item).2
      · rw [if_pos hok]
        obtain ⟨k, hk⟩ := ih (takeChoice sched).2
          (poolSettle (poolAdd s item) (takeChoice sched).1 item).1
        refine ⟨k + 1, ?_⟩
        rw [hk, (poolSettle_fields _ _ _).2.1]
        simp [poolAdd]
      · rw [if_neg hok]
        refine ⟨1, ?_⟩
        show (poolSettle (poolAdd s item) (takeChoice sched).1 item).1.started = _
        rw [(poolSettle_fields _ _ _).2.1]
        simp [poolAdd]
    · rw [if_neg hc]
      obtain ⟨k, hk⟩ := ih sched (poolAdd s item)
      refine ⟨k + 1, ?_⟩
      rw [hk]
      simp [poolAdd]

theorem mapWCLoop_ok {α : Type} (ok : α → Bool) (N : Nat) :
    ∀ (list : List α) (sched : List Nat) (s : PoolSt α),
      (∀ a ∈ s.executing, ok a = true) → (∀ a ∈ list, ok a = true) →
      (mapWCLoop ok N list sched s).1.aborted = s.aborted ∧
      (mapWCLoop ok N list sched s).1.started = s.started ++ list ∧
      (∀ a ∈ (mapWCLoop ok N list sched s).1.executing, ok a = true) ∧
      ((mapWCLoop ok N list sched s).1.settledRev ++
          (mapWCLoop ok N list sched s).1.executing).Perm
        (s.settledRev ++ s.executing ++ list) := by
  intro list
  induction list with
  | nil =>
    intro sched s hexec _
    refine ⟨by simp [mapWCLoop], by simp [mapWCLoop], ?_, by simp [mapWCLoop]⟩
    simpa [mapWCLoop] using hexec
  | cons item rest ih =>
    intro sched s hexec hlist
    have hne : (poolAdd s item).executing ≠ [] := by simp [poolAdd]
    have hexec1 : ∀ a ∈ (poolAdd s item).executing, ok a = true := by
      intro a ha
      have ha' : a ∈ s.executing ∨ a = item := by simpa [poolAdd] using ha
      rcases ha' with h | rfl
      · exact hexec a h
      · exact hlist a (List.mem_cons_self _ _)
    have hrest : ∀ a ∈ rest, ok a = true := fun a ha =>
      hlist a (List.mem_cons_of_mem _ ha)
    rw [mapWCLoop]
    by_cases hc : N ≤ (poolAdd s item).executing.length
    · rw [if_pos hc]
      have htok : ok (poolSettle (poolAdd s item) (takeChoice sched).1 item).2 = true :=
        hexec1 _ (poolSettle_settled_mem (poolAdd s item) (takeChoice sched).1 item hne)
      rw [if_pos htok]
      have hfields := poolSettle_fields (poolAdd s item) (takeChoice sched).1 item
      have hexec2 :
          ∀ a ∈ (poolSettle (poolAdd s item) (takeChoice sched).1 item).1.executing,
            ok a = true := by
        intro a ha
        exact hexec1 a
          ((poolSettle_perm (poolAdd s item) (takeChoice sched).1 item hne).mem_iff.mp
            (List.mem_cons_of_mem _ ha))
      obtain ⟨hab, hst, hex, hperm⟩ := ih (takeChoice sched).2
        (poolSettle (poolAdd s item) (takeChoice sched).1 item).1 hexec2 hrest
      have hmid :
          ((poolSettle (poolAdd s item) (takeChoice sched).1 item).1.settledRev ++
              (poolSettle (poolAdd s item) (takeChoice sched).1 item).1.executing).Perm
            (s.settledRev ++ (s.executing ++ [item])) := by
        rw [hfields.2.2.2]
        have h1 :
            ((poolSettle (poolAdd s item) (takeChoice sched).1 item).2 ::
                (poolAdd s item).settledRev) ++
                (poolSettle (poolAdd s item) (takeChoice sched).1 item).1.executing =
              (poolSettle (poolAdd s item) (takeChoice sched).1 item).2 ::
                ((poolAdd s item).settledRev ++
                  (poolSettle (poolAdd s item) (takeChoice sched).1 item).1.executing) := by
          simp
        rw [h1]
        refine List.Perm.trans List.perm_middle.symm ?_
        refine List.Perm.trans
          (List.Perm.append_left (poolAdd s item).settledRev
            (poolSettle_perm (poolAdd s item) (takeChoice sched).1 item hne)) ?_
        exact List.Perm.of_eq (by simp [poolAdd])
      refine ⟨?_, ?_, hex, ?_⟩
      · rw [hab, hfields.2.2.1]; simp [poolAdd]
      · rw [hst, hfields.2.1]; simp [poolAdd]
      · refine hperm.trans ?_
        refine (hmid.append_right rest).trans ?_
        exact List.Perm.of_eq (by simp)
    · rw [if_neg hc]
      obtain ⟨hab, hst, hex, hperm⟩ := ih sched (poolAdd s item) hexec1 hrest
      refine ⟨?_, ?_, hex, ?_⟩
      · rw [hab]; simp [poolAdd]
      · rw [hst]; simp [poolAdd]
      · refine hperm.trans ?_
        exact List.Perm.of_eq (by simp [poolAdd])

theorem mapWCDrain_fields {α : Type} :
    ∀ (fuel : Nat) (sched : List Nat) (s : PoolSt α),
      (mapWCDrain fuel sched s).maxExec = s.maxExec ∧
      (mapWCDrain fuel sched s).started = s.started ∧
      (mapWCDrain fuel sched s).aborted = s.aborted := by
  intro fuel
  induction fuel with
  | zero => intro sched s; exact ⟨rfl, rfl, rfl⟩
  | succ fuel ih =>
    intro sched s
    rw [mapWCDrain]
    cases hse : s.executing with
    | nil => exact ⟨rfl, rfl, rfl⟩
    | cons e es =>
      obtain ⟨h1, h2, h3⟩ := ih (takeChoice sched).2 (poolSettle s (takeChoice sched).1 e).1
      have hf := poolSettle_fields s (takeChoice sched).1 e
      exact ⟨h1.trans hf.1, h2.trans hf.2.1, h3.trans hf.2.2.1⟩

theorem mapWCDrain_executing_nil {α : Type} :
    ∀ (fuel : Nat) (sched : List Nat) (s : PoolSt α),
      s.executing.length ≤ fuel → (mapWCDrain fuel sched s).executing = [] := by
  intro fuel
  induction fuel with
  | zero =>
    intro sched s h
    exact List.length_eq_zero.mp (Nat.le_zero.mp h)
  | succ fuel ih =>
    intro sched s h
    rw [mapWCDrain]
    cases hse : s.executing with
    | nil => exact hse
    | cons e es =>
      apply ih
      have hne : s.executing ≠ [] := by rw [hse]; simp
      have hlen := poolSettle_executing_length s (takeChoice sched).1 e hne
      have hsl : s.executing.length = es.length + 1 := by rw [hse]; rfl
      omega

theorem mapWCDrain_perm {α : Type} :
    ∀ (fuel : Nat) (sched : List Nat) (s : PoolSt α),
      ((mapWCDrain fuel sched s).settledRev ++ (mapWCDrain fuel sched s).executing).Perm
        (s.settledRev ++ s.executing) := by
  intro fuel
  induction fuel with
  | zero => intro sched s; exact List.Perm.refl _
  | succ fuel ih =>
    intro sched s
    rw [mapWCDrain]
    cases hse : s.executing with
    | nil =>
      show (s.settledRev ++ s.executing).Perm (s.settledRev ++ [])
      rw [hse]
    | cons e es =>
      have hne : s.executing ≠ [] := by rw [hse]; simp
      refine (ih (takeChoice sched).2 (poolSettle s (takeChoice sched).1 e).1).trans ?_
      have hf := poolSettle_fields s (takeChoice sched).1 e
      have hsp := poolSettle_perm s (takeChoice sched).1 e hne
      rw [hse] at hsp
      rw [hf.2.2.2]
      have h1 :
          ((poolSettle s (takeChoice sched).1 e).2 :: s.settledRev) ++
              (poolSettle s (takeChoice sched).1 e).1.executing =
            (poolSettle s (takeChoice sched).1 e).2 ::
              (s.settledRev ++ (poolSettle s (takeChoice sched).1 e).1.executing) := by
        simp
      rw [h1]
      refine List.Perm.trans List.perm_middle.symm ?_
      exact List.Perm.append_left s.settledRev hsp

/-- A run with no mapper rejection never aborts, starts exactly the
input tasks in order, settles them all, and the settled multiset is the
input list. -/
theorem mapWCRun_all_ok {α : Type} (ok : α → Bool) (N : Nat) (list : List α)
    (sched : List Nat) (h : ∀ a ∈ list, ok a = true) :
    (mapWCRun ok N list sched).aborted = false ∧
    (mapWCRun ok N list sched).started = list ∧
    (mapWCRun ok N list sched).executing = [] ∧
    (mapWCRun ok N list sched).settledRev.Perm list := by
  obtain ⟨hab, hst, _, hperm⟩ :=
    mapWCLoop_ok ok N list sched initPool (by simp [initPool]) h
  simp only [initPool] at hab hst hperm
  have hab' : (mapWCLoop ok N list sched initPool).1.aborted = false := hab
  rw [mapWCRun]
  simp only [hab', if_false, Bool.false_eq_true]
  have hdf := mapWCDrain_fields
    ((mapWCLoop ok N list sched initPool).1.executing.length)
    (mapWCLoop ok N list sched initPool).2
    (mapWCLoop ok N list sched initPool).1
  have hdn := mapWCDrain_executing_nil
    ((mapWCLoop ok N list sched initPool).1.executing.length)
    (mapWCLoop ok N list sched initPool).2
    (mapWCLoop ok N list sched initPool).1 (Nat.le_refl _)
  have hdp := mapWCDrain_perm
    ((mapWCLoop ok N list sched initPool).1.executing.length)
    (mapWCLoop ok N list sched initPool).2
    (mapWCLoop ok N list sched initPool).1
  refine ⟨hdf.2.2.trans hab', hdf.2.1.trans (by simpa using hst), hdn, ?_⟩
  have hperm' := hdp.trans hperm
  rw [hdn] at hperm'
  simpa using hperm'

/-- The settled count of a no-rejection run is the task count. -/
theorem mapWCRun_settled_length {α : Type} (ok : α → Bool) (N : Nat) (list : List α)
    (sched : List Nat) (h : ∀ a ∈ list, ok a = true) :
    (mapWCRun ok N list sched).settledRev.length = list.length :=
  (mapWCRun_all_ok ok N list sched h).2.2.2.length_eq

/-- The peak in-flight count of any run is at most `N` when `N ≥ 1`. -/
theorem mapWCRun_maxExec {α : Type} (ok : α → Bool) (N : Nat) (list : List α)
    (sched : List Nat) (hN : 1 ≤ N) :
    (mapWCRun ok N list sched).maxExec ≤ N := by
  obtain ⟨hb, _⟩ := mapWCLoop_bound ok N list sched initPool (by simpa [initPool] using hN)
    (by simp [initPool])
  rw [mapWCRun]
  by_cases hab : (mapWCLoop ok N list sched initPool).1.aborted
  · simpa [hab] using hb
  · simp only [hab, if_false, Bool.false_eq_true]
    have hdf := mapWCDrain_fields
      ((mapWCLoop ok N list sched initPool).1.executing.length)
      (mapWCLoop ok N list sched initPool).2
      (mapWCLoop ok N list sched initPool).1
    simpa [hab, hdf.1] using hb

/-- Tasks are started in list order with no skips or repeats before the
point the run stops admitting: the started list is a prefix of the
input. -/
theorem mapWCRun_started_take {α : Type} (ok : α → Bool) (N : Nat) (list : List α)
    (sched : List Nat) :
    ∃ k, (mapWCRun ok N list sched).started = list.take k := by
  obtain ⟨k, hk⟩ := mapWCLoop_started_take ok N list sched initPool
  simp only [initPool, List.nil_append] at hk
  rw [mapWCRun]
  by_cases hab : (mapWCLoop ok N list sched initPool).1.aborted
  · exact ⟨k, by simpa [hab] using hk⟩
  · simp only [hab, if_false, Bool.false_eq_true]
    have hdf := mapWCDrain_fields
      ((mapWCLoop ok N list sched initPool).1.executing.length)
      (mapWCLoop ok N list sched initPool).2
      (mapWCLoop ok N list sched initPool).1
    exact ⟨k, hdf.2.1.trans hk⟩

/-! ### Lemmas about event traces -/

theorem filterMap_flatMap {α β γ : Type} (l : List α) (f : α → List β) (g : β → Option γ) :
    (l.flatMap f).filterMap g = l.flatMap (fun a => (f a).filterMap g) := by
  induction l with
  | nil => rfl
  | cons a as ih => simp [ih]

theorem progressTrace_append (l1 l2 : List Event) :
    progressTrace (l1 ++ l2) = progressTrace l1 ++ progressTrace l2 :=
  List.filterMap_append l1 l2 _

theorem progressTrace_fetchPhase (n M : Nat) :
    progressTrace (fetchPhaseEvents n M) =
      (List.range n).map (fun k => jsRound100 (k + 1) M) := by
  simp only [progressTrace, fetchPhaseEvents, List.filterMap_map]
  exact List.filterMap_eq_map _ ▸ rfl

theorem progressTrace_gen (metas : List Nat) :
    progressTrace (genProgressEvents metas) = metas.filter (fun p => p ≠ 0) := by
  simp only [progressTrace, genProgressEvents, List.filterMap_map]
  have h : ((fun e =>
      match e with
      | Event.setProgress v => some v
      | _ => none) ∘ Event.setProgress) = some := by
    funext v; rfl
  rw [h, List.filterMap_some]

theorem archivesOf_fetchPhase (n M : Nat) : archivesOf (fetchPhaseEvents n M) = [] := by
  simp [archivesOf, fetchPhaseEvents, List.filterMap_map, Function.comp]

theorem archivesOf_gen (metas : List Nat) : archivesOf (genProgressEvents metas) = [] := by
  simp [archivesOf, genProgressEvents, List.filterMap_map, Function.comp]

theorem jsRound100_mono {c d : Nat} (M : Nat) (h : c ≤ d) :
    jsRound100 c M ≤ jsRound100 d M :=
  Nat.div_le_div_right (by omega)

theorem jsRound100_self {M : Nat} (h : 1 ≤ M) : jsRound100 M M = 100 := by
  unfold jsRound100
  apply Nat.div_eq_of_lt_le
  · omega
  · omega

theorem chain'_le_map_range (f : Nat → Nat) (hf : ∀ i j, i ≤ j → f i ≤ f j) (n : Nat) :
    List.Chain' (· ≤ ·) ((List.range n).map f) := by
  apply List.Pairwise.chain'
  rw [List.pairwise_map]
  have hp : List.Pairwise (· < ·) (List.range n) := by
    rw [List.range_eq_range']
    exact List.pairwise_lt_range' 0 n
  exact hp.imp (fun h => hf _ _ (Nat.le_of_lt h))

/-! ### Characterizations of the operations' traces -/

theorem zipFiles_isEmpty_false {anchors : List (Option String)}
    (hf : zipFiles anchors ≠ []) : (zipFiles anchors).isEmpty = false := by
  cases hzf : zipFiles anchors with
  | nil => exact absurd hzf hf
  | cons a as => rfl

/-- The client-zip path of `createZipFromFolder`, spelled out. -/
theorem createZip_zip_events (anchors : List (Option String)) (fetchOk : String → Bool)
    (metas : List Nat) (sched : List Nat) (fp fn : String)
    (hf : zipFiles anchors ≠ []) :
    createZipFromFolder ⟨true, FetchHtml.ok anchors, fetchOk, metas⟩ sched fp fn =
      fetchPhaseEvents (zipFiles anchors).length (zipFiles anchors).length
        ++ genProgressEvents metas
        ++ [Event.saveArchive ((if fn = "" then "photos" else fn) ++ ".zip")
              (zipPackEntries fetchOk fp (if fn = "" then "photos" else fn)
                ((mapWCRun (fun _ => true) 4 (zipFiles anchors) sched).settledRev.reverse)),
            Event.setProgress 100] := by
  have hL := mapWCRun_settled_length (fun _ => true) 4 (zipFiles anchors) sched
    (by intro a _; rfl)
  simp only [createZipFromFolder, zipFiles_isEmpty_false hf, Bool.false_eq_true,
    if_false, Bool.not_true, hL]

/-- The sequential fallback path of `createZipFromFolder` (JSZip failed
to load), spelled out. -/
theorem createZip_noZip_events (anchors : List (Option String)) (fetchOk : String → Bool)
    (metas : List Nat) (sched : List Nat) (fp fn : String)
    (hf : zipFiles anchors ≠ []) :
    createZipFromFolder ⟨false, FetchHtml.ok anchors, fetchOk, metas⟩ sched fp fn =
      Event.setProgress 0 ::
        downloadFilesSequentially (zipFiles anchors) fp fn ++ [Event.setProgress 100] := by
  simp only [createZipFromFolder, zipFiles_isEmpty_false hf, Bool.false_eq_true,
    if_false, Bool.not_false, if_true]

theorem map_fst_enum_comp {α β : Type} (l : List α) (f : Nat → β) :
    l.enum.map (fun p => f p.1) = (List.range l.length).map f := by
  have h1 : l.enum.map (fun p => f p.1)
      = (l.enum.map Prod.fst).map f := by
    rw [List.map_map]; rfl
  rw [h1, List.enum_map_fst]

theorem map_snd_enum_comp {α β : Type} (l : List α) (f : α → β) :
    l.enum.map (fun p => f p.2) = l.map f := by
  have h1 : l.enum.map (fun p => f p.2)
      = (l.enum.map Prod.snd).map f := by
    rw [List.map_map]; rfl
  rw [h1, List.enum_map_snd]

theorem progressTrace_allSeq (tasks : List DlTask) :
    progressTrace (allSeqEvents tasks) =
      (List.range tasks.length).map (fun k => jsRound100 (k + 1) tasks.length) := by
  rw [allSeqEvents, progressTrace, filterMap_flatMap]
  have h : (fun p : Nat × DlTask =>
      ([Event.download (p.2.path ++ p.2.file) (allFileName p.2),
        Event.setProgress (jsRound100 (p.1 + 1) tasks.length),
        Event.pauseMs 200].filterMap (fun e =>
          match e with
          | Event.setProgress v => some v
          | _ => none)))
      = fun p : Nat × DlTask => [jsRound100 (p.1 + 1) tasks.length] := by
    funext p; rfl
  rw [h]
  have h2 : (tasks.enum.flatMap fun p => [jsRound100 (p.1 + 1) tasks.length])
      = tasks.enum.map (fun p => jsRound100 (p.1 + 1) tasks.length) := by
    induction tasks.enum with
    | nil => rfl
    | cons a as ih => simp [ih]
  rw [h2]
  exact map_fst_enum_comp tasks (fun k => jsRound100 (k + 1) tasks.length)

theorem tasks_isEmpty_false {tasks : List DlTask} (ht : tasks ≠ []) :
    tasks.isEmpty = false := by
  cases hzf : tasks with
  | nil => exact absurd hzf ht
  | cons a as => rfl

/-- The client-zip path of `downloadAllVisible`, spelled out. -/
theorem downloadAll_zip_events (tiles : List (String × String))
    (listing : String → Option (List (Option String))) (fetchOk : String → Bool)
    (metas : List Nat) (sched : List Nat)
    (ht : gatherTasks ⟨true, tiles, listing, fetchOk, metas⟩ ≠ []) :
    downloadAllVisible ⟨true, tiles, listing, fetchOk, metas⟩ sched =
      fetchPhaseEvents (gatherTasks ⟨true, tiles, listing, fetchOk, metas⟩).length
          (gatherTasks ⟨true, tiles, listing, fetchOk, metas⟩).length
        ++ genProgressEvents metas
        ++ [Event.saveArchive "photos-all.zip"
              (allPackEntries fetchOk
                ((mapWCRun (fun _ => true) 4
                    (gatherTasks ⟨true, tiles, listing, fetchOk, metas⟩)
                    sched).settledRev.reverse)),
            Event.setProgress 100] := by
  have hL := mapWCRun_settled_length (fun _ => true) 4
    (gatherTasks ⟨true, tiles, listing, fetchOk, metas⟩) sched (by intro a _; rfl)
  simp only [downloadAllVisible, tasks_isEmpty_false ht, Bool.false_eq_true,
    if_false, Bool.not_true, hL]

/-- The sequential fallback path of `downloadAllVisible`, spelled out. -/
theorem downloadAll_noZip_events (tiles : List (String × String))
    (listing : String → Option (List (Option String))) (fetchOk : String → Bool)
    (metas : List Nat) (sched : List Nat)
    (ht : gatherTasks ⟨false, tiles, listing, fetchOk, metas⟩ ≠ []) :
    downloadAllVisible ⟨false, tiles, listing, fetchOk, metas⟩ sched =
      allSeqEvents (gatherTasks ⟨false, tiles, listing, fetchOk, metas⟩)
        ++ [Event.setProgress 100] := by
  simp only [downloadAllVisible, tasks_isEmpty_false ht, Bool.false_eq_true,
    if_false, Bool.not_false, if_true]

/-! ### Lemmas about candidate probing and tile expansion -/

theorem findAvailableZip_eq_none (probe : String → Bool) :
    ∀ l : List String, (∀ c ∈ l, probe c = false) → findAvailableZip probe l = none := by
  intro l
  induction l with
  | nil => intro _; rfl
  | cons c cs ih =>
    intro h
    have hc : probe c = false := h c (List.mem_cons_self _ _)
    simp only [findAvailableZip, hc, Bool.false_eq_true, if_false]
    exact ih (fun x hx => h x (List.mem_cons_of_mem _ hx))

theorem findAvailableZip_first (probe : String → Bool) :
    ∀ (l1 : List String) (c : String) (l2 : List String),
      (∀ x ∈ l1, probe x = false) → probe c = true →
      findAvailableZip probe (l1 ++ c :: l2) = some c
      ∧ probeTrace probe (l1 ++ c :: l2) = l1 ++ [c] := by
  intro l1
  induction l1 with
  | nil =>
    intro c l2 _ hc
    constructor
    · simp [findAvailableZip, hc]
    · simp [probeTrace, hc]
  | cons x xs ih =>
    intro c l2 h1 hc
    have hx : probe x = false := h1 x (List.mem_cons_self _ _)
    obtain ⟨ha, hb⟩ := ih c l2 (fun y hy => h1 y (List.mem_cons_of_mem _ hy)) hc
    constructor
    · simp only [List.cons_append, findAvailableZip, hx, Bool.false_eq_true, if_false]
      exact ha
    · simp only [List.cons_append, probeTrace, hx, Bool.false_eq_true, if_false]
      exact congrArg (List.cons x) hb

theorem toggleClick_of_loaded (c : Bool) (s : TileState) (h : s.loaded = true) :
    toggleClick c s = { s with hidden := !s.hidden } := by
  simp [toggleClick, h]

theorem runClicks_of_loaded :
    ∀ (clicks : List Bool) (s : TileState), s.loaded = true →
      (runClicks clicks s).loaded = true ∧ (runClicks clicks s).requests = s.requests := by
  intro clicks
  induction clicks with
  | nil => intro s h; exact ⟨h, rfl⟩
  | cons c cs ih =>
    intro s h
    rw [runClicks, toggleClick_of_loaded c s h]
    exact ih _ h

theorem loadFlips_le_one :
    ∀ (clicks : List Bool) (s : TileState),
      loadFlips clicks s ≤ if s.loaded then 0 else 1 := by
  intro clicks
  induction clicks with
  | nil => intro s; simp [loadFlips]
  | cons c cs ih =>
    intro s
    rw [loadFlips]
    have h4 := ih (toggleClick c s)
    by_cases hs : s.loaded = true
    · have hld : (toggleClick c s).loaded = true := by
        rw [toggleClick_of_loaded c s hs]; exact hs
      simp only [hs, hld, Bool.not_true, Bool.false_and, Bool.false_eq_true,
        if_false, if_true] at h4 ⊢
      omega
    · have hs' : s.loaded = false := by simpa using hs
      by_cases h3 : (toggleClick c s).loaded = true
      · simp only [hs', h3, Bool.not_false, Bool.true_and, Bool.false_eq_true,
          if_false, if_true] at h4 ⊢
        omega
      · have h5 : (toggleClick c s).loaded = false := by simpa using h3
        simp only [hs', h5, Bool.not_false, Bool.true_and, Bool.false_eq_true,
          if_false, if_true] at h4 ⊢
        omega

theorem chain'_map_range_concat_100 (M : Nat) :
    List.Chain' (· ≤ ·)
      ((List.range M).map (fun k => jsRound100 (k + 1) M) ++ [100]) := by
  apply List.Pairwise.chain'
  rw [List.pairwise_append]
  refine ⟨?_, by simp, ?_⟩
  · rw [List.pairwise_map]
    have hp : List.Pairwise (· < ·) (List.range M) := by
      rw [List.range_eq_range']
      exact List.pairwise_lt_range' 0 M
    exact hp.imp (fun h => jsRound100_mono M (by omega))
  · intro x hx y hy
    simp only [List.mem_singleton] at hy
    subst hy
    obtain ⟨k, hk, rfl⟩ := List.mem_map.mp hx
    have hkM : k < M := List.mem_range.mp hk
    calc jsRound100 (k + 1) M ≤ jsRound100 M M := jsRound100_mono M (by omega)
      _ = 100 := jsRound100_self (by omega)

theorem map_range_getLast_100 (M : Nat) (hM : 1 ≤ M) :
    ((List.range M).map (fun k => jsRound100 (k + 1) M)).getLast? = some 100 := by
  obtain ⟨m, rfl⟩ : ∃ m, M = m + 1 := ⟨M - 1, by omega⟩
  rw [List.range_succ, List.map_append]
  simp only [List.map_cons, List.map_nil]
  rw [List.getLast?_concat, jsRound100_self hM]

/-! ### The claims -/

/-- Claim C1, counterexample: the claim says the global progress value
never decreases within one top-level download operation.  In the
client-zip build of a one-file folder whose fetch phase has finished
(progress 100), an encoder callback reporting 50 percent drives the bar
back down: the successive values are 100, 50, 100. -/
theorem progress_not_monotone_cex :
    ¬ List.Chain' (· ≤ ·)
        (progressTrace (createZipFromFolder
          ⟨true, FetchHtml.ok [some "a.jpg"], fun _ => true, [50]⟩
          [] "/photos/x/" "x")) := by
  intro h
  have htr : progressTrace (createZipFromFolder
      ⟨true, FetchHtml.ok [some "a.jpg"], fun _ => true, [50]⟩
      [] "/photos/x/" "x") = [100, 50, 100] := by decide
  rw [htr] at h
  exact absurd (List.chain'_cons.mp h).1 (by decide)

/-- Claim C1, amended: within each operation the task-phase progress
writes are non-decreasing and end at 100, the sequential fallbacks'
whole traces are non-decreasing, and every operation's final progress
write is 100; only the hand-off from fetch phase to archive-encode
phase can decrease the bar (the encoder re-reports percentages from
low values). -/
theorem progress_phase_monotone_and_final_100
    (anchors : List (Option String)) (fetchOk : String → Bool) (metas sched : List Nat)
    (fp fn : String) (tiles : List (String × String))
    (listing : String → Option (List (Option String))) (fetchOk2 : String → Bool)
    (metas2 sched2 : List Nat)
    (hf : zipFiles anchors ≠ [])
    (ht : gatherTasks ⟨true, tiles, listing, fetchOk2, metas2⟩ ≠ []) :
    (progressTrace (createZipFromFolder ⟨true, FetchHtml.ok anchors, fetchOk, metas⟩
        sched fp fn)).getLast? = some 100
    ∧ List.Chain' (· ≤ ·)
        (progressTrace (fetchPhaseEvents (zipFiles anchors).length (zipFiles anchors).length))
    ∧ (progressTrace (fetchPhaseEvents (zipFiles anchors).length
        (zipFiles anchors).length)).getLast? = some 100
    ∧ progressTrace (createZipFromFolder ⟨false, FetchHtml.ok anchors, fetchOk, metas⟩
        sched fp fn) = [0, 100]
    ∧ (progressTrace (downloadAllVisible ⟨true, tiles, listing, fetchOk2, metas2⟩
        sched2)).getLast? = some 100
    ∧ List.Chain' (· ≤ ·)
        (progressTrace (downloadAllVisible ⟨false, tiles, listing, fetchOk2, metas2⟩ sched2))
    ∧ (progressTrace (downloadAllVisible ⟨false, tiles, listing, fetchOk2, metas2⟩
        sched2)).getLast? = some 100 := by
  have hM : 1 ≤ (zipFiles anchors).length := by
    cases hzf : zipFiles anchors with
    | nil => exact absurd hzf hf
    | cons a as => simp
  have ht' : gatherTasks ⟨false, tiles, listing, fetchOk2, metas2⟩ ≠ [] := ht
  have hT : 1 ≤ (gatherTasks ⟨false, tiles, listing, fetchOk2, metas2⟩).length := by
    cases hzf : gatherTasks ⟨false, tiles, listing, fetchOk2, metas2⟩ with
    | nil => exact absurd hzf ht'
    | cons a as => simp
  refine ⟨?_, ?_, ?_, ?_, ?_, ?_, ?_⟩
  · rw [createZip_zip_events anchors fetchOk metas sched fp fn hf,
        progressTrace_append, progressTrace_append]
    have hlast : progressTrace
        [Event.saveArchive ((if fn = "" then "photos" else fn) ++ ".zip")
          (zipPackEntries fetchOk fp (if fn = "" then "photos" else fn)
            ((mapWCRun (fun _ => true) 4 (zipFiles anchors) sched).settledRev.reverse)),
         Event.setProgress 100] = [100] := rfl
    rw [hlast, List.getLast?_concat]
  · rw [progressTrace_fetchPhase]
    exact chain'_le_map_range _ (fun i j h => jsRound100_mono _ (by omega)) _
  · rw [progressTrace_fetchPhase]
    exact map_range_getLast_100 _ hM
  · rw [createZip_noZip_events anchors fetchOk metas sched fp fn hf]
    have hseq : progressTrace (downloadFilesSequentially (zipFiles anchors) fp fn) = [] := by
      rw [downloadFilesSequentially, progressTrace, filterMap_flatMap]
      have h : (fun f => ([Event.download (fp ++ f) (seqFileName fn f),
          Event.pauseMs 250].filterMap (fun e =>
            match e with
            | Event.setProgress v => some v
            | _ => none))) = fun _ : String => ([] : List Nat) := by
        funext f; rfl
      rw [h]
      simp
    show progressTrace (Event.setProgress 0 ::
        (downloadFilesSequentially (zipFiles anchors) fp fn ++ [Event.setProgress 100])) = _
    rw [progressTrace, List.filterMap_cons]
    simp only []
    rw [show (List.filterMap (fun e =>
        match e with
        | Event.setProgress v => some v
        | _ => none) (downloadFilesSequentially (zipFiles anchors) fp fn ++
          [Event.setProgress 100])) = progressTrace (downloadFilesSequentially
            (zipFiles anchors) fp fn ++ [Event.setProgress 100]) from rfl,
      progressTrace_append, hseq]
    rfl
  · rw [downloadAll_zip_events tiles listing fetchOk2 metas2 sched2 ht,
        progressTrace_append, progressTrace_append]
    have hlast : progressTrace
        [Event.saveArchive "photos-all.zip"
          (allPackEntries fetchOk2
            ((mapWCRun (fun _ => true) 4
                (gatherTasks ⟨true, tiles, listing, fetchOk2, metas2⟩)
                sched2).settledRev.reverse)),
         Event.setProgress 100] = [100] := rfl
    rw [hlast, List.getLast?_concat]
  · rw [downloadAll_noZip_events tiles listing fetchOk2 metas2 sched2 ht',
        progressTrace_append, progressTrace_allSeq]
    have h100 : progressTrace [Event.setProgress 100] = [100] := rfl
    rw [h100]
    exact chain'_map_range_concat_100 _
  · rw [downloadAll_noZip_events tiles listing fetchOk2 metas2 sched2 ht',
        progressTrace_append]
    have h100 : progressTrace [Event.setProgress 100] = [100] := rfl
    rw [h100, List.getLast?_concat]

/-- Claim C1, amended, witness at a one-file folder and a one-tile
batch. -/
theorem progress_phase_monotone_and_final_100_witness :
    (zipFiles [some "a.jpg"] ≠ [] ∧
     gatherTasks ⟨true, [("x", "/photos/x/")], fun _ => some [some "a.jpg"],
       fun _ => true, [50]⟩ ≠ []) ∧
    ((progressTrace (createZipFromFolder
        ⟨true, FetchHtml.ok [some "a.jpg"], fun _ => true, [50]⟩
        [] "/photos/x/" "x")).getLast? = some 100
    ∧ List.Chain' (· ≤ ·)
        (progressTrace (fetchPhaseEvents (zipFiles [some "a.jpg"]).length
          (zipFiles [some "a.jpg"]).length))
    ∧ (progressTrace (fetchPhaseEvents (zipFiles [some "a.jpg"]).length
        (zipFiles [some "a.jpg"]).length)).getLast? = some 100
    ∧ progressTrace (createZipFromFolder
        ⟨false, FetchHtml.ok [some "a.jpg"], fun _ => true, [50]⟩
        [] "/photos/x/" "x") = [0, 100]
    ∧ (progressTrace (downloadAllVisible
        ⟨true, [("x", "/photos/x/")], fun _ => some [some "a.jpg"], fun _ => true, [50]⟩
        [])).getLast? = some 100
    ∧ List.Chain' (· ≤ ·)
        (progressTrace (downloadAllVisible
          ⟨false, [("x", "/photos/x/")], fun _ => some [some "a.jpg"], fun _ => true, [50]⟩ []))
    ∧ (progressTrace (downloadAllVisible
        ⟨false, [("x", "/photos/x/")], fun _ => some [some "a.jpg"], fun _ => true, [50]⟩
        [])).getLast? = some 100) :=
  ⟨⟨by decide, by decide⟩,
   progress_phase_monotone_and_final_100 [some "a.jpg"] (fun _ => true) [50] []
     "/photos/x/" "x" [("x", "/photos/x/")] (fun _ => some [some "a.jpg"])
     (fun _ => true) [50] [] (by decide) (by decide)⟩

/-- Claim C2, code-bug evidence: the claim (and the sibling
`folderTile` handler, whose comment and guard show the intent) says the
hardcoded minnesota archive path is probed only when the folder's name
case-insensitively equals minnesota.  The `renderFolderPage` zip
handler probes it first for every folder: on the Alaska folder page
with every probe answering ok, the probe list is exactly the minnesota
path and the resolved download is minnesota's archive, although
Alaska's name does not match. -/
theorem folderPage_probes_minnesota_unconditionally :
    (folderPageZipClick (fun _ => true) "/photos/Alaska/" "Alaska").2 = [minnesotaZipPath]
    ∧ (folderPageZipClick (fun _ => true) "/photos/Alaska/" "Alaska").1
        = ZipResolution.url minnesotaZipPath
    ∧ jsToLower "Alaska" ≠ "minnesota" := by
  refine ⟨rfl, rfl, ?_⟩
  decide

/-- Claim C3, counterexample: the claim says every one of the M tasks
is always started exactly once.  With concurrency 1 over tasks
`[0, 1]` where task 0's mapper promise rejects, the rejection wins the
admission race, the `await` throws, and task 1 is never started. -/
theorem mapWC_rejection_prevents_start_cex :
    (mapWCRun (fun a => decide (a ≠ 0)) 1 [0, 1] [0]).started ≠ [0, 1]
    ∧ (mapWCRun (fun a => decide (a ≠ 0)) 1 [0, 1] [0]).started = [0]
    ∧ (mapWCRun (fun a => decide (a ≠ 0)) 1 [0, 1] [0]).aborted = true := by
  refine ⟨?_, by decide, by decide⟩
  decide

/-- Claim C3, amended: for every concurrency limit N ≥ 1 the number of
simultaneously in-flight mapper invocations never exceeds N, and tasks
are started in list order with none repeated (the started tasks are a
prefix of the list); when no mapper invocation rejects, all M tasks are
started exactly once.  A rejection that wins an admission race aborts
admission, leaving the remaining tasks unstarted. -/
theorem mapWC_bounded_inflight_and_admission (α : Type) (ok : α → Bool) (N : Nat)
    (list : List α) (sched : List Nat) (hN : 1 ≤ N) :
    (mapWCRun ok N list sched).maxExec ≤ N
    ∧ (∃ k, (mapWCRun ok N list sched).started = list.take k)
    ∧ ((∀ a ∈ list, ok a = true) →
        (mapWCRun ok N list sched).started = list
        ∧ (mapWCRun ok N list sched).aborted = false) :=
  ⟨mapWCRun_maxExec ok N list sched hN,
   mapWCRun_started_take ok N list sched,
   fun h => ⟨(mapWCRun_all_ok ok N list sched h).2.1,
             (mapWCRun_all_ok ok N list sched h).1⟩⟩

/-- Claim C3, amended, witness: three always-resolving tasks under
concurrency 2. -/
theorem mapWC_bounded_inflight_and_admission_witness :
    1 ≤ 2 ∧
    ((mapWCRun (fun _ : Nat => true) 2 [5, 6, 7] [0, 1]).maxExec ≤ 2
     ∧ (∃ k, (mapWCRun (fun _ : Nat => true) 2 [5, 6, 7] [0, 1]).started = [5, 6, 7].take k)
     ∧ ((∀ a ∈ [5, 6, 7], (fun _ : Nat => true) a = true) →
         (mapWCRun (fun _ : Nat => true) 2 [5, 6, 7] [0, 1]).started = [5, 6, 7]
         ∧ (mapWCRun (fun _ : Nat => true) 2 [5, 6, 7] [0, 1]).aborted = false)) :=
  ⟨by decide,
   mapWC_bounded_inflight_and_admission Nat (fun _ => true) 2 [5, 6, 7] [0, 1] (by decide)⟩

/-- Claim C10: when no mapper invocation rejects, `mapWithConcurrency`
resolves, for every scheduler interleaving and every limit, to exactly
the mapper's results in input order (the promises are pushed in input
order and `Promise.all` preserves array order), so the i-th result is
the mapper's result for the i-th input. -/
theorem mapWithConcurrency_ordered_results (α β : Type) (ok : α → Bool) (f : α → β)
    (N : Nat) (list : List α) (sched : List Nat) (h : ∀ a ∈ list, ok a = true) :
    mapWithConcurrency ok f N list sched = some (list.map f) := by
  obtain ⟨hab, hst, _, _⟩ := mapWCRun_all_ok ok N list sched h
  rw [mapWithConcurrency]
  simp only [hab, Bool.false_eq_true, if_false, hst]
  rw [if_pos]
  exact List.all_eq_true.mpr h

/-- Claim C10, witness: doubling three numbers under concurrency 2 with
an adversarial completion order. -/
theorem mapWithConcurrency_ordered_results_witness :
    (∀ a ∈ [1, 2, 3], (fun _ : Nat => true) a = true) ∧
    mapWithConcurrency (fun _ : Nat => true) (fun a => a * 2) 2 [1, 2, 3] [1, 0, 1]
      = some [2, 4, 6] := by
  refine ⟨by decide, ?_⟩
  have h := mapWithConcurrency_ordered_results Nat Nat (fun _ => true) (fun a => a * 2)
    2 [1, 2, 3] [1, 0, 1] (by decide)
  simpa using h

/-- Claim C4: in the client-side archive build every task failure is
caught in the mapper, so no failure aborts siblings or the build; every
task is settled, each failed file is merely left out, the saved archive
holds exactly the successfully fetched files (named by basename, under
the folder label), and the operation's final progress write is 100. -/
theorem createZip_task_failure_isolated (anchors : List (Option String))
    (fetchOk : String → Bool) (metas sched : List Nat) (fp fn : String)
    (hf : zipFiles anchors ≠ []) :
    (∃ entries,
      archivesOf (createZipFromFolder ⟨true, FetchHtml.ok anchors, fetchOk, metas⟩
          sched fp fn)
        = [((if fn = "" then "photos" else fn) ++ ".zip", entries)]
      ∧ entries.Perm
          (((zipFiles anchors).filter (fun f => fetchOk (fp ++ f))).map
            (fun f => ⟨if fn = "" then "photos" else fn, jsBasename f, fp ++ f⟩)))
    ∧ (progressTrace (createZipFromFolder ⟨true, FetchHtml.ok anchors, fetchOk, metas⟩
        sched fp fn)).getLast? = some 100
    ∧ (mapWCRun (fun _ => true) 4 (zipFiles anchors) sched).settledRev.length
        = (zipFiles anchors).length := by
  have hall := mapWCRun_all_ok (fun _ => true) 4 (zipFiles anchors) sched
    (by intro a _; rfl)
  refine ⟨?_, ?_, ?_⟩
  · refine ⟨zipPackEntries fetchOk fp (if fn = "" then "photos" else fn)
      ((mapWCRun (fun _ => true) 4 (zipFiles anchors) sched).settledRev.reverse), ?_, ?_⟩
    · rw [createZip_zip_events anchors fetchOk metas sched fp fn hf]
      rw [show archivesOf = List.filterMap (fun e =>
          match e with
          | Event.saveArchive n es => some (n, es)
          | _ => none) from rfl]
      rw [List.filterMap_append, List.filterMap_append]
      rw [show (List.filterMap (fun e =>
          match e with
          | Event.saveArchive n es => some (n, es)
          | _ => none) (fetchPhaseEvents (zipFiles anchors).length (zipFiles anchors).length))
          = archivesOf (fetchPhaseEvents (zipFiles anchors).length (zipFiles anchors).length)
          from rfl,
        show (List.filterMap (fun e =>
          match e with
          | Event.saveArchive n es => some (n, es)
          | _ => none) (genProgressEvents metas)) = archivesOf (genProgressEvents metas)
          from rfl,
        archivesOf_fetchPhase, archivesOf_gen]
      rfl
    · rw [zipPackEntries]
      apply List.Perm.map
      apply List.Perm.filter
      exact (List.reverse_perm _).trans hall.2.2.2
  · rw [createZip_zip_events anchors fetchOk metas sched fp fn hf,
        progressTrace_append, progressTrace_append]
    have hlast : progressTrace
        [Event.saveArchive ((if fn = "" then "photos" else fn) ++ ".zip")
          (zipPackEntries fetchOk fp (if fn = "" then "photos" else fn)
            ((mapWCRun (fun _ => true) 4 (zipFiles anchors) sched).settledRev.reverse)),
         Event.setProgress 100] = [100] := rfl
    rw [hlast, List.getLast?_concat]
  · exact hall.2.2.2.length_eq

/-- Claim C4, witness: the folder `[a.jpg, b.jpg]` where b.jpg's fetch
fails yields an archive containing only a.jpg, with final progress
100. -/
theorem createZip_task_failure_isolated_witness :
    (zipFiles [some "a.jpg", some "b.jpg"] ≠ []) ∧
    ((∃ entries,
      archivesOf (createZipFromFolder
          ⟨true, FetchHtml.ok [some "a.jpg", some "b.jpg"],
            fun u => decide (u = "/photos/x/a.jpg"), []⟩ [] "/photos/x/" "x")
        = [("x" ++ ".zip", entries)]
      ∧ entries.Perm
          (((zipFiles [some "a.jpg", some "b.jpg"]).filter
              (fun f => decide ("/photos/x/" ++ f = "/photos/x/a.jpg"))).map
            (fun f => ⟨"x", jsBasename f, "/photos/x/" ++ f⟩)))
    ∧ (progressTrace (createZipFromFolder
        ⟨true, FetchHtml.ok [some "a.jpg", some "b.jpg"],
          fun u => decide (u = "/photos/x/a.jpg"), []⟩ [] "/photos/x/" "x")).getLast?
        = some 100
    ∧ (mapWCRun (fun _ => true) 4 (zipFiles [some "a.jpg", some "b.jpg"]) []).settledRev.length
        = (zipFiles [some "a.jpg", some "b.jpg"]).length) := by
  refine ⟨by decide, ?_⟩
  have h := createZip_task_failure_isolated [some "a.jpg", some "b.jpg"]
    (fun u => decide (u = "/photos/x/a.jpg")) [] [] "/photos/x/" "x" (by decide)
  simpa using h

theorem flatMap_singleton_eq_map {α β : Type} (l : List α) (g : α → β) :
    (l.flatMap fun a => [g a]) = l.map g := by
  induction l with
  | nil => rfl
  | cons a as ih => simp [ih]

/-- Claim C5: for a folder not matching the special override, the
`folderTile` zip handler probes exactly the four documented candidates
in order (folder-local .zip, folder-local .ZIP, photos root, altfiles),
stops at the first success without probing any later candidate, and
resolves to the client-zip fallback (null) when every probe fails. -/
theorem tile_zip_resolution_order (probe : String → Bool) (name path : String)
    (hn : name ≠ "") (hs : jsToLower name ≠ "minnesota") :
    tileCandidates name path =
      [path ++ jsEncodeURIComponent name ++ ".zip",
       path ++ jsEncodeURIComponent name ++ ".ZIP",
       "/photos/" ++ jsEncodeURIComponent name ++ ".zip",
       "/photos/altfiles/" ++ jsEncodeURIComponent name ++ ".zip"]
    ∧ (folderTileZipClick probe name path).2 = probeTrace probe (tileCandidates name path)
    ∧ (∀ l1 c l2, tileCandidates name path = l1 ++ c :: l2 →
        (∀ x ∈ l1, probe x = false) → probe c = true →
        (folderTileZipClick probe name path).1 = ZipResolution.url c
        ∧ (folderTileZipClick probe name path).2 = l1 ++ [c])
    ∧ ((∀ c ∈ tileCandidates name path, probe c = false) →
        (folderTileZipClick probe name path).1 = ZipResolution.clientZip
        ∧ findAvailableZip probe (tileCandidates name path) = none) := by
  have hnotspec : ¬(name ≠ "" ∧ jsToLower name = "minnesota") := fun hsp => hs hsp.2
  have hclick : folderTileZipClick probe name path =
      (match findAvailableZip probe (tileCandidates name path) with
       | some u => ZipResolution.url u
       | none => ZipResolution.clientZip,
       probeTrace probe (tileCandidates name path)) := by
    simp only [folderTileZipClick]
    rw [if_neg hnotspec]
  refine ⟨?_, ?_, ?_, ?_⟩
  · simp [tileCandidates, hn]
  · rw [hclick]
  · intro l1 c l2 hdec h1 hc
    obtain ⟨ha, hb⟩ := findAvailableZip_first probe l1 c l2 h1 hc
    rw [hclick, hdec]
    constructor
    · show (match findAvailableZip probe (l1 ++ c :: l2) with
        | some u => ZipResolution.url u
        | none => ZipResolution.clientZip) = ZipResolution.url c
      rw [ha]
    · exact hb
  · intro hall
    have hnone := findAvailableZip_eq_none probe (tileCandidates name path) hall
    rw [hclick]
    constructor
    · show (match findAvailableZip probe (tileCandidates name path) with
        | some u => ZipResolution.url u
        | none => ZipResolution.clientZip) = ZipResolution.clientZip
      rw [hnone]
    · exact hnone

/-- Claim C5, witness: the Alaska folder whose archive exists only at
the photos root resolves to the third candidate after probing the first
three and not the fourth. -/
theorem tile_zip_resolution_order_witness :
    (("Alaska" : String) ≠ "" ∧ jsToLower "Alaska" ≠ "minnesota") ∧
    (tileCandidates "Alaska" "/photos/Alaska/" =
      ["/photos/Alaska/" ++ jsEncodeURIComponent "Alaska" ++ ".zip",
       "/photos/Alaska/" ++ jsEncodeURIComponent "Alaska" ++ ".ZIP",
       "/photos/" ++ jsEncodeURIComponent "Alaska" ++ ".zip",
       "/photos/altfiles/" ++ jsEncodeURIComponent "Alaska" ++ ".zip"]
    ∧ (folderTileZipClick (fun u => u == "/photos/Alaska.zip") "Alaska" "/photos/Alaska/").2
        = probeTrace (fun u => u == "/photos/Alaska.zip")
            (tileCandidates "Alaska" "/photos/Alaska/")
    ∧ (∀ l1 c l2, tileCandidates "Alaska" "/photos/Alaska/" = l1 ++ c :: l2 →
        (∀ x ∈ l1, (fun u => u == "/photos/Alaska.zip") x = false) →
        (fun u => u == "/photos/Alaska.zip") c = true →
        (folderTileZipClick (fun u => u == "/photos/Alaska.zip") "Alaska"
            "/photos/Alaska/").1 = ZipResolution.url c
        ∧ (folderTileZipClick (fun u => u == "/photos/Alaska.zip") "Alaska"
            "/photos/Alaska/").2 = l1 ++ [c])
    ∧ ((∀ c ∈ tileCandidates "Alaska" "/photos/Alaska/",
          (fun u => u == "/photos/Alaska.zip") c = false) →
        (folderTileZipClick (fun u => u == "/photos/Alaska.zip") "Alaska"
            "/photos/Alaska/").1 = ZipResolution.clientZip
        ∧ findAvailableZip (fun u => u == "/photos/Alaska.zip")
            (tileCandidates "Alaska" "/photos/Alaska/") = none)) :=
  ⟨⟨by decide, by decide⟩,
   tile_zip_resolution_order (fun u => u == "/photos/Alaska.zip") "Alaska"
     "/photos/Alaska/" (by decide) (by decide)⟩

/-- Claim C6: when JSZip cannot be loaded, a folder-download request
with M listed files performs the sequential fallback: exactly M
anchor-click downloads, one per listed file in list order, each
followed by the fixed 250ms pause, and no archive is produced. -/
theorem noZip_sequential_downloads (anchors : List (Option String))
    (fetchOk : String → Bool) (metas sched : List Nat) (fp fn : String)
    (hf : zipFiles anchors ≠ []) :
    createZipFromFolder ⟨false, FetchHtml.ok anchors, fetchOk, metas⟩ sched fp fn =
      Event.setProgress 0 ::
        (zipFiles anchors).flatMap (fun f =>
          [Event.download (fp ++ f) (seqFileName fn f), Event.pauseMs 250])
        ++ [Event.setProgress 100]
    ∧ downloadsOf (createZipFromFolder ⟨false, FetchHtml.ok anchors, fetchOk, metas⟩
        sched fp fn)
        = (zipFiles anchors).map (fun f => (fp ++ f, seqFileName fn f))
    ∧ (downloadsOf (createZipFromFolder ⟨false, FetchHtml.ok anchors, fetchOk, metas⟩
        sched fp fn)).length = (zipFiles anchors).length
    ∧ archivesOf (createZipFromFolder ⟨false, FetchHtml.ok anchors, fetchOk, metas⟩
        sched fp fn) = [] := by
  have hev := createZip_noZip_events anchors fetchOk metas sched fp fn hf
  have hdl : downloadsOf (downloadFilesSequentially (zipFiles anchors) fp fn)
      = (zipFiles anchors).map (fun f => (fp ++ f, seqFileName fn f)) := by
    simp only [downloadFilesSequentially, downloadsOf, filterMap_flatMap]
    have h : (fun f => ([Event.download (fp ++ f) (seqFileName fn f),
        Event.pauseMs 250].filterMap (fun e =>
          match e with
          | Event.download u d => some (u, d)
          | _ => none)))
        = fun f : String => [((fp ++ f, seqFileName fn f) : String × String)] := by
      funext f; rfl
    rw [h, flatMap_singleton_eq_map]
  have hda : downloadsOf (createZipFromFolder ⟨false, FetchHtml.ok anchors, fetchOk, metas⟩
      sched fp fn) = (zipFiles anchors).map (fun f => (fp ++ f, seqFileName fn f)) := by
    rw [hev]
    show downloadsOf (Event.setProgress 0 ::
      (downloadFilesSequentially (zipFiles anchors) fp fn ++ [Event.setProgress 100])) = _
    simp only [downloadsOf, List.filterMap_cons, List.filterMap_append]
    rw [show List.filterMap (fun e =>
        match e with
        | Event.download u d => some (u, d)
        | _ => none) (downloadFilesSequentially (zipFiles anchors) fp fn)
        = downloadsOf (downloadFilesSequentially (zipFiles anchors) fp fn) from rfl, hdl]
    simp
  refine ⟨hev, hda, by rw [hda, List.length_map], ?_⟩
  rw [hev]
  show archivesOf (Event.setProgress 0 ::
    (downloadFilesSequentially (zipFiles anchors) fp fn ++ [Event.setProgress 100])) = _
  simp only [archivesOf, List.filterMap_cons, List.filterMap_append]
  have hsa : List.filterMap (fun e =>
      match e with
      | Event.saveArchive n es => some (n, es)
      | _ => none) (downloadFilesSequentially (zipFiles anchors) fp fn) = [] := by
    simp only [downloadFilesSequentially, filterMap_flatMap]
    have h : (fun f => ([Event.download (fp ++ f) (seqFileName fn f),
        Event.pauseMs 250].filterMap (fun e =>
          match e with
          | Event.saveArchive n es => some (n, es)
          | _ => none)))
        = fun _ : String => ([] : List (String × List ArchiveEntry)) := by
      funext f; rfl
    rw [h]
    simp
  rw [hsa]
  rfl

/-- Claim C6, witness: a two-file folder with JSZip unavailable. -/
theorem noZip_sequential_downloads_witness :
    (zipFiles [some "a.jpg", some "b.jpg"] ≠ []) ∧
    (createZipFromFolder ⟨false, FetchHtml.ok [some "a.jpg", some "b.jpg"],
        fun _ => true, []⟩ [] "/photos/x/" "x" =
      Event.setProgress 0 ::
        (zipFiles [some "a.jpg", some "b.jpg"]).flatMap (fun f =>
          [Event.download ("/photos/x/" ++ f) (seqFileName "x" f), Event.pauseMs 250])
        ++ [Event.setProgress 100]
    ∧ downloadsOf (createZipFromFolder ⟨false, FetchHtml.ok [some "a.jpg", some "b.jpg"],
        fun _ => true, []⟩ [] "/photos/x/" "x")
        = (zipFiles [some "a.jpg", some "b.jpg"]).map
            (fun f => ("/photos/x/" ++ f, seqFileName "x" f))
    ∧ (downloadsOf (createZipFromFolder ⟨false, FetchHtml.ok [some "a.jpg", some "b.jpg"],
        fun _ => true, []⟩ [] "/photos/x/" "x")).length
        = (zipFiles [some "a.jpg", some "b.jpg"]).length
    ∧ archivesOf (createZipFromFolder ⟨false, FetchHtml.ok [some "a.jpg", some "b.jpg"],
        fun _ => true, []⟩ [] "/photos/x/" "x") = []) :=
  ⟨by decide,
   noZip_sequential_downloads [some "a.jpg", some "b.jpg"] (fun _ => true) [] []
     "/photos/x/" "x" (by decide)⟩

/-- Claim C7: root folder discovery is total (the model is a Lean
function, so it never throws): when the manifest fetch fails it falls
back to anchor parsing of the photos root, every discovered folder
comes from a trailing-slash href, and when the fallback fetch fails or
yields no trailing-slash anchors the result has an empty folder
list. -/
theorem loadManifest_fallback_behavior (links : List (Option String)) :
    loadManifest none (some links) = manifestAnchorFolders links
    ∧ loadManifest none none = []
    ∧ (manifestAnchorFolders links = [] → loadManifest none (some links) = [])
    ∧ (∀ fd ∈ manifestAnchorFolders links,
        ∃ hr, some hr ∈ links ∧ jsEndsWith hr "/" = true
          ∧ fd.name = removeFirstSlash hr
          ∧ fd.path = "/photos/" ++ removeFirstSlash hr ++ "/") := by
  refine ⟨rfl, rfl, ?_, ?_⟩
  · intro h
    rw [show loadManifest none (some links) = manifestAnchorFolders links from rfl, h]
  · intro fd hfd
    simp only [manifestAnchorFolders, List.mem_map, List.mem_filter,
      List.mem_filterMap, id] at hfd
    obtain ⟨hr, ⟨⟨⟨x, hx, hxeq⟩, _⟩, hsl⟩, heq⟩ := hfd
    refine ⟨hr, ?_, hsl, ?_, ?_⟩
    · exact hxeq ▸ hx
    · rw [← heq]
    · rw [← heq]

/-- Claim C7, witness: one trailing-slash anchor, one file anchor, one
missing href. -/
theorem loadManifest_fallback_behavior_witness :
    loadManifest none (some [some "alpha/", some "b.jpg", none])
        = manifestAnchorFolders [some "alpha/", some "b.jpg", none]
    ∧ loadManifest none none = []
    ∧ (manifestAnchorFolders [some "alpha/", some "b.jpg", none] = [] →
        loadManifest none (some [some "alpha/", some "b.jpg", none]) = [])
    ∧ (∀ fd ∈ manifestAnchorFolders [some "alpha/", some "b.jpg", none],
        ∃ hr, some hr ∈ [some "alpha/", some "b.jpg", none] ∧ jsEndsWith hr "/" = true
          ∧ fd.name = removeFirstSlash hr
          ∧ fd.path = "/photos/" ++ removeFirstSlash hr ++ "/") :=
  loadManifest_fallback_behavior [some "alpha/", some "b.jpg", none]

/-- Claim C8: folder expansion is idempotent once loaded: with the
loaded flag set, a toggle click only flips visibility (no new discovery
request, flag unchanged), any sequence of later clicks leaves the
request count unchanged, and along any click sequence the loaded flag
moves from false to true at most once. -/
theorem folder_expansion_idempotent (clicks : List Bool) (c : Bool) (s : TileState)
    (h : s.loaded = true) :
    toggleClick c s = { s with hidden := !s.hidden }
    ∧ (runClicks clicks s).loaded = true
    ∧ (runClicks clicks s).requests = s.requests
    ∧ (∀ clicks0 s0, loadFlips clicks0 s0 ≤ 1) := by
  refine ⟨toggleClick_of_loaded c s h, (runClicks_of_loaded clicks s h).1,
    (runClicks_of_loaded clicks s h).2, ?_⟩
  intro clicks0 s0
  have h1 := loadFlips_le_one clicks0 s0
  by_cases hl : s0.loaded = true
  · rw [if_pos hl] at h1; omega
  · rw [if_neg hl] at h1; exact h1

/-- Claim C8, witness: a loaded, visible tile clicked twice more. -/
theorem folder_expansion_idempotent_witness :
    ((⟨false, true, 1⟩ : TileState).loaded = true) ∧
    (toggleClick true ⟨false, true, 1⟩
        = { (⟨false, true, 1⟩ : TileState) with hidden := !(⟨false, true, 1⟩ : TileState).hidden }
    ∧ (runClicks [true, false] ⟨false, true, 1⟩).loaded = true
    ∧ (runClicks [true, false] ⟨false, true, 1⟩).requests = (⟨false, true, 1⟩ : TileState).requests
    ∧ (∀ clicks0 s0, loadFlips clicks0 s0 ≤ 1)) :=
  ⟨rfl, folder_expansion_idempotent [true, false] true ⟨false, true, 1⟩ rfl⟩

/-- Claim C9, counterexample: the claim says data: URIs are excluded by
the img fallback.  The exclusion filter runs after the collapse to the
text after the last slash, so a data: URI containing a slash (as every
MIME-typed data URI does) is not excluded: it contributes its
post-slash text as a file entry. -/
theorem imgFallback_data_uri_cex :
    (parseFolderListing [] [some "data:image/png;base64,AAAA"]).files
        = ["png;base64,AAAA"]
    ∧ jsStartsWith "data:image/png;base64,AAAA" "data:" = true := by
  constructor
  · decide
  · decide

/-- Claim C9, amended: when anchor classification yields zero files,
the img srcs are scanned and each non-empty src contributes the text
after its last slash as a file entry, except entries that still begin
with `data:` after that stripping — so only slash-free data: URIs are
excluded, and every produced entry is free of path components and of a
leading `data:`. -/
theorem imgFallback_amended (anchors imgs : List (Option String))
    (h : indexAnchorFiles anchors = []) :
    (parseFolderListing anchors imgs).files = imgFallbackFiles imgs
    ∧ (∀ f ∈ (parseFolderListing anchors imgs).files, jsStartsWith f "data:" = false)
    ∧ (∀ src, some src ∈ imgs → src ≠ "" →
        jsStartsWith (jsBasename (stripLeadingDoubleSlash src)) "data:" = false →
        jsBasename (stripLeadingDoubleSlash src) ∈ (parseFolderListing anchors imgs).files) := by
  have hfiles : (parseFolderListing anchors imgs).files = imgFallbackFiles imgs := by
    simp [parseFolderListing, h]
  refine ⟨hfiles, ?_, ?_⟩
  · intro f hf
    rw [hfiles] at hf
    simp only [imgFallbackFiles, List.mem_filter] at hf
    simpa using hf.2
  · intro src hsrc hne hdata
    rw [hfiles]
    simp only [imgFallbackFiles, List.mem_filter, List.mem_map, List.mem_filterMap, id]
    refine ⟨⟨src, ⟨⟨src, hsrc, rfl⟩, ?_⟩, rfl⟩, ?_⟩
    · simpa using hne
    · simpa using hdata

/-- Claim C9, amended, witness: a page whose only imgs are a pathful
jpeg and a slash-free data URI. -/
theorem imgFallback_amended_witness :
    (indexAnchorFiles [some "sub/"] = []) ∧
    ((parseFolderListing [some "sub/"] [some "./pics/cat.jpg", some "data:,x"]).files
        = imgFallbackFiles [some "./pics/cat.jpg", some "data:,x"]
    ∧ (∀ f ∈ (parseFolderListing [some "sub/"]
          [some "./pics/cat.jpg", some "data:,x"]).files,
        jsStartsWith f "data:" = false)
    ∧ (∀ src, some src ∈ [some "./pics/cat.jpg", some "data:,x"] → src ≠ "" →
        jsStartsWith (jsBasename (stripLeadingDoubleSlash src)) "data:" = false →
        jsBasename (stripLeadingDoubleSlash src)
          ∈ (parseFolderListing [some "sub/"]
              [some "./pics/cat.jpg", some "data:,x"]).files)) :=
  ⟨by decide,
   imgFallback_amended [some "sub/"] [some "./pics/cat.jpg", some "data:,x"] (by decide)⟩

end Photos
